import Mathlib

/-!
Verification of the miniclawd agent runtime core.

Shallow embedding of the Go sources:
* `internal/core/llmtypes.go` — the provider-neutral content model,
* `internal/llm` (`SanitizeMessages`, `messageToText`) — the sanitizer,
* `internal/agent/memory_context.go` — memory ranking/selection and compaction,
* `internal/agent/history.go` — history conversion, think-stripping, image
  stripping,
* `internal/agent/engine.go` — the agentic loop (`ProcessWithEvents`).

Go slices, maps and structs are modelled with Lean lists, and the Go
`MessageContent{Text, Blocks}` pair (whose `Blocks` field is nil exactly when
the content is a plain string) is modelled as a sum type `MContent`; a Go
`BlocksContent` applied to a possibly-nil built-by-append slice is modelled by
`mkBlocksContent`, which maps the empty list to `.text ""` exactly as a nil
`Blocks` field behaves in Go.  `float64` confidence values are modelled as
rationals.  DB/network calls are modelled as oracle inputs: each query's
result (or failure) is a parameter, and the engine is a pure function from
those oracles to its return value plus a record of the externally visible
effects (LLM calls with the submitted message lists, session saves, memory
inserts).
-/

namespace Miniclawd

/-! ### Character-level string primitives

Go's `strings` functions operate on bytes; the sources only ever apply them
with ASCII patterns, where the byte level and the character level coincide.
They are modelled here by structurally recursive functions over `String.data`
so that concrete instances are checkable by evaluation. -/

/-- `strings.ToLower` (rune-wise lowering). -/
def toLowerStr (s : String) : String := String.mk (s.data.map Char.toLower)

/-- `strings.HasPrefix`. -/
def hasPrefixStr (pat s : String) : Bool := pat.data.isPrefixOf s.data

/-- `strings.TrimSpace` (drop leading and trailing whitespace). -/
def trimStr (s : String) : String :=
  String.mk (((s.data.dropWhile Char.isWhitespace).reverse.dropWhile Char.isWhitespace).reverse)

/-- Helper for `strings.Fields`: `acc` is the current field, reversed. -/
def fieldsAux (acc : List Char) : List Char → List String
  | [] => if acc.isEmpty then [] else [String.mk acc.reverse]
  | c :: rest =>
    if c.isWhitespace then
      if acc.isEmpty then fieldsAux [] rest
      else String.mk acc.reverse :: fieldsAux [] rest
    else fieldsAux (c :: acc) rest

/-- `strings.Fields`: maximal non-empty runs of non-whitespace characters. -/
def fieldsOf (s : String) : List String := fieldsAux [] s.data

/-- `core.ImageSource` (llmtypes.go). -/
structure ImageSource where
  type : String
  mediaType : String
  data : String
deriving DecidableEq, Repr

/-- `core.ContentBlock` (llmtypes.go): a tagged-by-`type` struct whose unused
fields keep their zero values, exactly as in Go. `Input *json.RawMessage` is
modelled as `Option String`. -/
structure ContentBlock where
  type : String
  text : String := ""
  source : Option ImageSource := none
  id : String := ""
  name : String := ""
  input : Option String := none
  toolUseId : String := ""
  content : String := ""
  isError : Option Bool := none
deriving DecidableEq, Repr

/-- `core.TextBlock`. -/
def textBlock (t : String) : ContentBlock := { type := "text", text := t }

/-- `core.ImageBlock`. -/
def imageBlock (mediaType base64Data : String) : ContentBlock :=
  { type := "image", source := some ⟨"base64", mediaType, base64Data⟩ }

/-- `core.ToolUseBlock`. -/
def toolUseBlock (id name input : String) : ContentBlock :=
  { type := "tool_use", id := id, name := name, input := some input }

/-- `core.ToolResultBlock`: the `IsError` pointer is set only when true. -/
def toolResultBlock (toolUseId content : String) (isError : Bool) : ContentBlock :=
  { type := "tool_result", toolUseId := toolUseId, content := content,
    isError := if isError then some true else none }

/-- `core.MessageContent`: in Go a pair `{Text, Blocks}` where
`IsBlocks() = (Blocks != nil)`; modelled as a sum.  `.text s` stands for
`{Text: s, Blocks: nil}` and `.blocks bs` for a non-nil `Blocks` slice. -/
inductive MContent where
  | text (s : String)
  | blocks (bs : List ContentBlock)
deriving DecidableEq, Repr

/-- `MessageContent.IsBlocks`. -/
def MContent.isBlocks : MContent → Bool
  | .text _ => false
  | .blocks _ => true

/-- The Go `.Text` field read (yields `""` on block content). -/
def MContent.textField : MContent → String
  | .text s => s
  | .blocks _ => ""

/-- The Go `.Blocks` field read (yields nil = `[]` on string content). -/
def MContent.blocksField : MContent → List ContentBlock
  | .text _ => []
  | .blocks bs => bs

/-- `core.BlocksContent` applied to a slice built by `append` from nil: the
empty slice is nil, which Go treats as string content `""`. -/
def mkBlocksContent (bs : List ContentBlock) : MContent :=
  if bs.isEmpty then .text "" else .blocks bs

/-- `core.Message` (llmtypes.go). -/
structure Message where
  role : String
  content : MContent
deriving DecidableEq, Repr

/-- `messageToText` (llm package) and `agent.MessageToText` (history.go):
both join the non-empty texts of the text blocks with `"\n"`
(`strings.Join` and the manual loop in `messageToText` agree). -/
def messageToText (msg : Message) : String :=
  match msg.content with
  | .text s => s
  | .blocks bs =>
    String.intercalate "\n"
      ((bs.filter (fun b => b.type = "text" ∧ b.text ≠ "")).map (·.text))

/-! ## The sanitizer (`llm.SanitizeMessages`) -/

/-- Step 1 of `SanitizeMessages`: collect every `tool_use` id appearing in an
assistant message (the Go `toolUseIDs` set, as a list with `contains` for
membership). -/
def assistantToolUseIds : List Message → List String
  | [] => []
  | msg :: rest =>
    (if msg.role = "assistant" then
      match msg.content with
      | .blocks bs => (bs.filter (fun b => b.type = "tool_use")).map (·.id)
      | .text _ => []
    else []) ++ assistantToolUseIds rest

/-- Step 2 of `SanitizeMessages`: drop orphan `tool_result` blocks from user
block-messages; drop a message that becomes block-empty; pass every other
message through unchanged. -/
def removeOrphans (ids : List String) : List Message → List Message
  | [] => []
  | msg :: rest =>
    if msg.role = "user" ∧ msg.content.isBlocks then
      let kept := msg.content.blocksField.filter
        (fun b => ¬(b.type = "tool_result" ∧ ¬ids.contains b.toolUseId))
      if kept.isEmpty then removeOrphans ids rest
      else ⟨msg.role, .blocks kept⟩ :: removeOrphans ids rest
    else msg :: removeOrphans ids rest

/-- The in-place text merge of step 3: the Go loop mutates the last appended
message, replacing its content by the combined text unless both sides extract
to empty text (in which case the last message is left untouched and the new
one is dropped). -/
def mergeInto (last msg : Message) : Message :=
  let lastText := messageToText last
  let newText := messageToText msg
  if lastText ≠ "" ∨ newText ≠ "" then
    { last with
      content := .text (lastText ++ (if lastText ≠ "" ∧ newText ≠ "" then "\n" else "") ++ newText) }
  else last

/-- Step 3 of `SanitizeMessages`: merge consecutive same-role messages.
`mergeRun last l` processes `l` with `last` as the last appended message. -/
def mergeRun (last : Message) : List Message → List Message
  | [] => [last]
  | msg :: rest =>
    if msg.role = last.role then mergeRun (mergeInto last msg) rest
    else last :: mergeRun msg rest

/-- The merge loop of `SanitizeMessages` over the whole cleaned list. -/
def mergeMessages : List Message → List Message
  | [] => []
  | msg :: rest => mergeRun msg rest

/-- `llm.SanitizeMessages` (the `len == 0` early return is the identity). -/
def sanitizeMessages (messages : List Message) : List Message :=
  if messages.isEmpty then messages
  else mergeMessages (removeOrphans (assistantToolUseIds messages) messages)

/-- A user block-message is orphan-free w.r.t. a set of tool-use ids when each
of its `tool_result` blocks references one of the ids. -/
def userBlocksOk (ids : List String) (msg : Message) : Prop :=
  msg.role = "user" →
    ∀ b ∈ msg.content.blocksField, b.type = "tool_result" → ids.contains b.toolUseId = true

/-- Counterexample input for idempotence: merging the two consecutive
assistant messages erases the `tool_use` id `"1"`, orphaning the user's
`tool_result` only after the first pass. -/
def exC1 : List Message :=
  [ ⟨"assistant", .blocks [toolUseBlock "1" "t" "{}"]⟩,
    ⟨"assistant", .text "hi"⟩,
    ⟨"user", .blocks [toolResultBlock "1" "ok" false]⟩ ]

/-- Witness input for the amended idempotence claim. -/
def exC1w : List Message := [⟨"user", .text "a"⟩, ⟨"user", .text "b"⟩]

/-- Counterexample input for orphan removal: an orphan `tool_result` sitting
in an *assistant* message is not filtered by the sanitizer. -/
def exC5 : List Message := [⟨"assistant", .blocks [toolResultBlock "x" "r" false]⟩]

/-- Witness input for the amended orphan-removal claim: a user message whose
only block is an orphan `tool_result`. -/
def exC5w : List Message :=
  [⟨"assistant", .text "hello"⟩, ⟨"user", .blocks [toolResultBlock "z" "r" false]⟩]

/-! ## Memory Context Ranker (`agent.BuildDBMemoryContext`, memory_context.go)

Go `float64` confidences/scores are modelled as rationals; the concrete
values used in theorems are exactly representable in both. -/

/-- `storage.Memory`, restricted to the fields the ranker reads. -/
structure Memory where
  chatId : Option Int
  content : String
  category : String
  confidence : ℚ
deriving DecidableEq, Repr

/-- The anonymous `scored` struct of `BuildDBMemoryContext`. -/
structure Scored where
  mem : Memory
  score : ℚ
deriving DecidableEq, Repr

/-- The query words: `strings.Fields(strings.ToLower(query))`. -/
def queryWordsOf (query : String) : List String :=
  fieldsOf (toLowerStr query)

/-- `strings.Contains` on the character level: `pat` occurs as a contiguous
run inside `s`. -/
def subListOf (pat : List Char) : List Char → Bool
  | [] => pat.isEmpty
  | c :: rest => pat.isPrefixOf (c :: rest) || subListOf pat rest

/-- The score of one memory: confidence, plus `0.3` per query word of length
`≥ 3` contained in the lower-cased content, plus `0.2` when confidence is
`≥ 0.8`. -/
def scoreMemory (queryWords : List String) (m : Memory) : ℚ :=
  let contentLower := toLowerStr m.content
  let base := queryWords.foldl
    (fun s w => if 3 ≤ w.length ∧ subListOf w.toList contentLower.toList then s + 0.3 else s)
    m.confidence
  if 0.8 ≤ m.confidence then base + 0.2 else base

/-- The candidate list, one `Scored` per fetched memory, in fetch order. -/
def memoryCandidates (memories : List Memory) (query : String) : List Scored :=
  memories.map (fun m => ⟨m, scoreMemory (queryWordsOf query) m⟩)

/-- The inner loop of the ranker's sort for a fixed outer index: scans the
tail, swapping the current element with any strictly higher-scored one; the
pair returned is (final value at the outer index, tail left behind, in
position order). -/
def selectPass (cur : Scored) : List Scored → Scored × List Scored
  | [] => (cur, [])
  | x :: xs =>
    if cur.score < x.score then
      ((selectPass x xs).1, cur :: (selectPass x xs).2)
    else
      ((selectPass cur xs).1, x :: (selectPass cur xs).2)

/-- The ranker's double-loop sort (swap-based selection sort, descending by
score), structurally recursive on a fuel argument: each outer step fixes one
position and recurses on the leftover tail, which `selectPass` keeps at the
same length, so fuel `l.length` exactly covers the outer loop. -/
def selSortAux : Nat → List Scored → List Scored
  | 0, l => l
  | _ + 1, [] => []
  | fuel + 1, x :: xs => (selectPass x xs).1 :: selSortAux fuel (selectPass x xs).2

/-- The ranker's sort over the whole candidate list. -/
def selSort (l : List Scored) : List Scored := selSortAux l.length l

/-- `est := len(c.mem.Content) / 4` (Go `len` counts bytes). -/
def memEstimate (m : Memory) : Nat := m.content.utf8ByteSize / 4

/-- The greedy budgeted selection loop of `BuildDBMemoryContext`: a candidate
is skipped when it would exceed the budget *and* something was already
selected; the first selected candidate is admitted unconditionally. -/
def selectLoop (budget : Int) : List Scored → Nat → Nat → List Memory
  | [], _, _ => []
  | c :: rest, tokensUsed, selectedCount =>
    let est := memEstimate c.mem
    if budget < ((tokensUsed + est : Nat) : Int) ∧ 0 < selectedCount then
      selectLoop budget rest tokensUsed selectedCount
    else
      c.mem :: selectLoop budget rest (tokensUsed + est) (selectedCount + 1)

/-- The ranker's selection for given memories, query and budget. -/
def memorySelection (memories : List Memory) (query : String) (budget : Int) : List Memory :=
  selectLoop budget (selSort (memoryCandidates memories query)) 0 0

/-- The `<structured_memories>` XML block formatting. -/
def formatMemories (selected : List Memory) : String :=
  "<structured_memories>\n"
    ++ String.join (selected.map (fun m =>
        "- [" ++ m.category ++ "]["
          ++ (if m.chatId = none then "global" else "chat") ++ "] " ++ m.content ++ "\n"))
    ++ "</structured_memories>"

/-- `agent.BuildDBMemoryContext`, with the DB fetch abstracted into the
`memories` input (a fetch error or `db == nil` behaves as the empty list /
the `≤ 0` budget guard). -/
def buildDBMemoryContext (memories : List Memory) (query : String) (tokenBudget : Int) : String :=
  if tokenBudget ≤ 0 then ""
  else if memories.isEmpty then ""
  else
    let selected := memorySelection memories query tokenBudget
    if selected.isEmpty then ""
    else formatMemories selected

/-- The stability property claimed for the ranker's sort, at one input list:
candidates with equal scores keep their original relative order. -/
def selSortStableOn (l : List Scored) : Prop :=
  ∀ x ∈ l, ∀ y ∈ l, x ≠ y → x.score = y.score →
    l.indexOf x < l.indexOf y → (selSort l).indexOf x < (selSort l).indexOf y

instance (l : List Scored) : Decidable (selSortStableOn l) := by
  unfold selSortStableOn
  infer_instance

/-- Counterexample candidates for sort stability: two equal-scored candidates
(`alpha` before `beta`) followed by a higher-scored one (`gamma`); such scores
arise e.g. from confidences `0, 0, 3/4` and an empty query. -/
def exC3 : List Scored :=
  [ ⟨⟨none, "alpha", "KNOWLEDGE", 0⟩, 0⟩,
    ⟨⟨none, "beta", "KNOWLEDGE", 0⟩, 0⟩,
    ⟨⟨none, "gamma", "KNOWLEDGE", mkRat 3 4⟩, mkRat 3 4⟩ ]

/-- Witness memories for the budget-respect claim. -/
def exC4 : List Memory := [⟨none, "user likes tea", "KNOWLEDGE", 0⟩]

/-- Summed token estimate of a selection. -/
def estSum (sel : List Memory) : Nat := (sel.map memEstimate).sum

/-! ## History helpers (`internal/agent/history.go`) -/

/-- `strings.Index` at the character level: position of the first occurrence
of `pat` as a contiguous run, `none` if absent. -/
def findSub (pat : List Char) : List Char → Option Nat
  | [] => if pat.isEmpty then some 0 else none
  | c :: rest =>
    if pat.isPrefixOf (c :: rest) then some 0 else (findSub pat rest).map (· + 1)

/-- The rewrite loop of `StripThinking`: repeatedly excise the span from the
first `<think>` to its first following `</think>`; an unterminated `<think>`
truncates to end of string.  Each excision removes at least the 7-character
open tag, so fuel `s.length` covers every iteration. -/
def stripThinkingAux : Nat → List Char → List Char
  | 0, s => s
  | fuel + 1, s =>
    match findSub "<think>".data s with
    | none => s
    | some start =>
      match findSub "</think>".data (s.drop start) with
      | none => s.take start
      | some e => stripThinkingAux fuel (s.take start ++ s.drop (start + e + 8))

/-- `agent.StripThinking`: excise `<think>…</think>` spans, then trim. -/
def stripThinking (text : String) : String :=
  trimStr (String.mk (stripThinkingAux text.data.length text.data))

/-- `agent.StripImagesForSession`: drop `image` blocks; a message left with no
blocks becomes the text `"[image]"`. -/
def stripImagesForSession (messages : List Message) : List Message :=
  messages.map (fun msg =>
    match msg.content with
    | .text _ => msg
    | .blocks bs =>
      let filtered := bs.filter (fun b => b.type ≠ "image")
      if filtered.isEmpty then ⟨msg.role, .text "[image]"⟩
      else ⟨msg.role, .blocks filtered⟩)

/-- The message list `agent.SaveSession` serializes and persists: the input
with image blocks stripped. -/
def saveSessionPayload (messages : List Message) : List Message :=
  stripImagesForSession messages

/-- `storage.StoredMessage`, restricted to the fields the engine reads. -/
structure StoredMessage where
  senderName : String
  content : String
  isFromBot : Bool
deriving DecidableEq, Repr

/-- The in-place merge of `mergeConsecutiveMessages` (history.go): unlike the
sanitizer's merge it reads the raw `.Text` fields and keeps the previous text
when the new one is empty. -/
def mergeConsecAux (last : Message) : List Message → List Message
  | [] => [last]
  | msg :: rest =>
    if msg.role = last.role then
      let prevText := last.content.textField
      let newText := msg.content.textField
      if prevText ≠ "" ∧ newText ≠ "" then
        mergeConsecAux ⟨last.role, .text (prevText ++ "\n" ++ newText)⟩ rest
      else if newText ≠ "" then
        mergeConsecAux ⟨last.role, .text newText⟩ rest
      else mergeConsecAux last rest
    else last :: mergeConsecAux msg rest

/-- `agent.mergeConsecutiveMessages`. -/
def mergeConsecutiveMessages (messages : List Message) : List Message :=
  if messages.length ≤ 1 then messages
  else
    match messages with
    | [] => []
    | m :: rest => mergeConsecAux m rest

/-- `agent.HistoryToMessages` (the `botUsername` parameter is unused in the
source): bot messages become assistant turns, others user turns with an
optional `[sender]: ` name tag, then consecutive same-role turns merge. -/
def historyToMessages (history : List StoredMessage) : List Message :=
  mergeConsecutiveMessages (history.map (fun msg =>
    { role := if msg.isFromBot then "assistant" else "user",
      content := .text (if ¬msg.isFromBot ∧ msg.senderName ≠ ""
        then "[" ++ msg.senderName ++ "]: " ++ msg.content
        else msg.content) }))

/-! ## Model responses and compaction (`internal/agent/memory_context.go`) -/

/-- `core.ResponseContentBlock`. -/
structure RespBlock where
  type : String
  text : String := ""
  id : String := ""
  name : String := ""
  input : String := ""
deriving DecidableEq, Repr

/-- `core.MessagesResponse` (usage metadata omitted — observability only). -/
structure ModelResponse where
  content : List RespBlock
  stopReason : String
deriving DecidableEq, Repr

/-- `agent.extractText` (engine.go): join non-empty text blocks with `"\n"`. -/
def extractText (resp : ModelResponse) : String :=
  String.intercalate "\n"
    ((resp.content.filter (fun b => b.type = "text" ∧ b.text ≠ "")).map (·.text))

/-- The block conversion inside `agent.responseToContent`. -/
def respToBlocks (content : List RespBlock) : List ContentBlock :=
  content.filterMap (fun b =>
    if b.type = "text" then some (textBlock b.text)
    else if b.type = "tool_use" then some (toolUseBlock b.id b.name b.input)
    else none)

/-- `agent.responseToContent` (engine.go). -/
def responseToContent (resp : ModelResponse) : MContent :=
  match resp.content with
  | [b] =>
    if b.type = "text" then .text b.text
    else mkBlocksContent (respToBlocks [b])
  | cs => mkBlocksContent (respToBlocks cs)

/-- The summary text `CompactMessages` extracts: concatenation of all text
blocks (no separator). -/
def summaryTextOf (resp : ModelResponse) : String :=
  ((resp.content.filter (fun b => b.type = "text")).map (·.text)).foldl (· ++ ·) ""

/-- The summarization request body `CompactMessages` builds from the dropped
prefix (submitted to the provider; the provider's reply is an oracle). -/
def compactSummaryPrompt (oldMessages : List Message) : String :=
  "Summarize the following conversation concisely, preserving key facts, decisions, and context:\n\n"
    ++ String.join (oldMessages.map (fun msg =>
        let text := messageToText msg
        if text ≠ "" then "[" ++ msg.role ++ "]: " ++ text ++ "\n" else ""))

/-- `agent.CompactMessages`, with the summarization model call abstracted to
its outcome `providerResp` (`none` = call error).  Returns the resulting
message list and whether the call errored. -/
def compactMessages (providerResp : Option ModelResponse) (messages : List Message)
    (keepRecent : Nat) : List Message × Bool :=
  if messages.length ≤ keepRecent then (messages, false)
  else
    let splitPoint := messages.length - keepRecent
    let recentMessages := messages.drop splitPoint
    match providerResp with
    | none => (messages, true)
    | some resp =>
      let summaryText := summaryTextOf resp
      if summaryText = "" then (messages, false)
      else
        (⟨"user", .text ("[Previous conversation summary]\n" ++ summaryText
              ++ "\n[End of summary - conversation continues below]")⟩
          :: ⟨"assistant",
              .text "Understood, I have the context from our previous conversation. Let's continue."⟩
          :: recentMessages, false)

/-! ## The agent loop (`internal/agent/engine.go`)

`ProcessWithEvents` is modelled as a pure function of its oracles: every DB
query result is an input (`DBView`), the LLM provider is a function from the
call index to its outcome (`none` = transport error), and tool dispatch is a
function from tool name and input to the uniform result envelope.  The
returned `RunOut` carries the engine's return value (`none` = Go error
return) together with the externally visible effects: the message list
submitted on each LLM call, the persisted session payload, the memory insert
of the `/remember:` fast path, and whether compaction was attempted.
Event emission, logging, usage metrics and context cancellation are
observability/concurrency concerns and are not modelled. -/

/-- The uniform tool result envelope (`tools.ToolResult`), restricted to the
fields the loop reads back into history. -/
structure ToolResultEnv where
  content : String
  isError : Bool
deriving DecidableEq, Repr

/-- The engine-relevant configuration fields. -/
structure Config where
  maxToolIterations : Nat
  maxSessionMessages : Nat
  compactKeepRecent : Nat
  memoryTokenBudget : Int
deriving DecidableEq, Repr

/-- `agent.ImageData`. -/
structure ImageData where
  mediaType : String
  base64 : String
deriving DecidableEq, Repr

/-- The DB query results the engine consumes, as oracle inputs. -/
structure DBView where
  /-- `GetRecentMessages(chatID, 1)`. -/
  recent1 : List StoredMessage
  /-- whether that query errored. -/
  recent1Err : Bool
  /-- `LoadSession`: `none` when not found or on load error. -/
  session : Option (List Message)
  /-- `GetNewUserMessagesSince(chatID, sessionUpdatedAt, maxHistory)`. -/
  newSince : List StoredMessage
  /-- the `LoadMessagesFromDB` query result (`none` = error). -/
  history : Option (List StoredMessage)
  /-- `GetMemoriesForContext(chatID, 100)`. -/
  memories : List Memory
deriving DecidableEq, Repr

/-- The engine's return value and externally visible effects. -/
structure RunOut where
  /-- the returned reply text; `none` models a Go error return. -/
  ret : Option String
  /-- the message list submitted on each LLM call, in call order. -/
  llmCalls : List (List Message) := []
  /-- the persisted session payload, when a save happened. -/
  savedSession : Option (List Message) := none
  /-- the `/remember:` fast-path insert: `(chat id, content)`. -/
  memoryInserted : Option (Option Int × String) := none
  /-- whether the compaction branch was entered. -/
  compactionAttempted : Bool := false
  /-- the memory context block handed to system-prompt assembly. -/
  memoryContext : String := ""
deriving DecidableEq, Repr

/-- The synthetic user nudge appended after a first empty visible reply. -/
def nudgeMessage : Message :=
  ⟨"user", .text "Please provide a visible text answer to the user's request."⟩

/-- The fixed exhaustion notice. -/
def maxIterationsNotice (n : Nat) : String :=
  "Reached maximum tool iterations (" ++ toString n ++ "). The task may be partially complete."

/-- The assistant blocks kept from a `tool_use` response: non-empty text
blocks and the tool invocations, in response order. -/
def assistantBlocksOf (resp : ModelResponse) : List ContentBlock :=
  resp.content.filterMap (fun b =>
    if b.type = "text" then (if b.text ≠ "" then some (textBlock b.text) else none)
    else if b.type = "tool_use" then some (toolUseBlock b.id b.name b.input)
    else none)

/-- The tool invocations of a response, in issue order. -/
def toolUsesOf (resp : ModelResponse) : List RespBlock :=
  resp.content.filter (fun b => b.type = "tool_use")

/-- One tool round: the appended assistant turn plus the single user turn
holding one `tool_result` per invocation (sequential dispatch, issue order,
ids preserved). -/
def toolRoundMessages (toolExec : String → String → ToolResultEnv)
    (resp : ModelResponse) : List Message :=
  [ ⟨"assistant", mkBlocksContent (assistantBlocksOf resp)⟩,
    ⟨"user", mkBlocksContent ((toolUsesOf resp).map (fun tu =>
        let result := toolExec tu.name tu.input
        toolResultBlock tu.id result.content result.isError))⟩ ]

/-- The bounded iteration of `ProcessWithEvents` (engine.go:161-332): `fuel`
is the number of remaining iterations, `callIdx` the number of LLM calls
already made, `emptyVisibleRetried` the per-turn empty-reply flag. -/
def loopGo (provider : Nat → Option ModelResponse)
    (toolExec : String → String → ToolResultEnv) (maxIter : Nat) :
    Nat → List Message → Bool → Nat → RunOut
  | 0, messages, _, _ =>
    { ret := some (maxIterationsNotice maxIter),
      savedSession := some (saveSessionPayload messages) }
  | fuel + 1, messages, emptyVisibleRetried, callIdx =>
    match provider callIdx with
    | none => { ret := none, llmCalls := [messages] }
    | some resp =>
      if resp.stopReason = "end_turn" ∨ resp.stopReason = "stop" then
        let text := stripThinking (extractText resp)
        if trimStr text = "" ∧ ¬emptyVisibleRetried then
          let out := loopGo provider toolExec maxIter fuel
            (messages ++ [⟨"assistant", responseToContent resp⟩, nudgeMessage]) true (callIdx + 1)
          { out with llmCalls := messages :: out.llmCalls }
        else
          { ret := some text,
            llmCalls := [messages],
            savedSession := some (saveSessionPayload
              (messages ++ [⟨"assistant", responseToContent resp⟩])) }
      else if resp.stopReason = "tool_use" then
        let out := loopGo provider toolExec maxIter fuel
          (messages ++ toolRoundMessages toolExec resp) emptyVisibleRetried (callIdx + 1)
        { out with llmCalls := messages :: out.llmCalls }
      else if resp.stopReason = "max_tokens" then
        let text0 := stripThinking (extractText resp)
        let text := if text0 = "" then "(Response truncated due to max_tokens limit)" else text0
        { ret := some text,
          llmCalls := [messages],
          savedSession := some (saveSessionPayload
            (messages ++ [⟨"assistant", responseToContent resp⟩])) }
      else
        { ret := some (stripThinking (extractText resp)),
          llmCalls := [messages],
          savedSession := some (saveSessionPayload
            (messages ++ [⟨"assistant", responseToContent resp⟩])) }

/-- History load/merge (engine.go:61-104): reuse a non-empty session and
append the override prompt or the stored messages since the save; otherwise
rebuild from DB history (`none` = load error, aborting the turn). -/
def assembleMessages (db : DBView) (overridePrompt : Option String) :
    Option (List Message) :=
  let fromDB : Option (List Message) :=
    match db.history with
    | none => none
    | some h =>
      let base := historyToMessages h
      match overridePrompt with
      | some p => some (base ++ [⟨"user", .text p⟩])
      | none => some base
  match db.session with
  | some s =>
    if s.isEmpty then fromDB
    else
      match overridePrompt with
      | some p => some (s ++ [⟨"user", .text p⟩])
      | none => some (s ++ historyToMessages db.newSince)
  | none => fromDB

/-- Image attachment (engine.go:106-115): replace a trailing user message's
content by `[image block, text block of its previous .Text]`. -/
def attachImage (image : Option ImageData) (messages : List Message) : List Message :=
  match image with
  | none => messages
  | some img =>
    match messages.getLast? with
    | some last =>
      if last.role = "user" then
        messages.dropLast
          ++ [⟨"user", .blocks [imageBlock img.mediaType img.base64,
                textBlock last.content.textField]⟩]
      else messages
    | none => messages

/-- Compaction step (engine.go:117-126): entered when the history exceeds the
ceiling (the pre-compaction archive write is an external file effect); a
compaction error keeps the uncompacted history.  Returns the messages the
loop proceeds with and whether the branch was entered. -/
def messagesAfterCompaction (cfg : Config) (compactResp : Option ModelResponse)
    (messages : List Message) : List Message × Bool :=
  if cfg.maxSessionMessages < messages.length then
    let (compacted, errored) := compactMessages compactResp messages cfg.compactKeepRecent
    (if errored then messages else compacted, true)
  else (messages, false)

/-- The ranking query: the text of the most recent user message. -/
def lastUserQuery (messages : List Message) : String :=
  match messages.reverse.find? (fun m => m.role = "user") with
  | some m => messageToText m
  | none => ""

/-- The main path of `ProcessWithEvents` after the fast path: load, attach
image, compact, build memory context, run the loop. -/
def processMain (cfg : Config) (db : DBView) (overridePrompt : Option String)
    (image : Option ImageData) (provider : Nat → Option ModelResponse)
    (compactResp : Option ModelResponse)
    (toolExec : String → String → ToolResultEnv) : RunOut :=
  match assembleMessages db overridePrompt with
  | none => { ret := none }
  | some assembled =>
    let withImage := attachImage image assembled
    let stepped := messagesAfterCompaction cfg compactResp withImage
    let mc := buildDBMemoryContext db.memories (lastUserQuery stepped.1) cfg.memoryTokenBudget
    let out := loopGo provider toolExec cfg.maxToolIterations
      cfg.maxToolIterations stepped.1 false 0
    { out with compactionAttempted := stepped.2, memoryContext := mc }

/-- `agent.ProcessWithEvents` (engine.go:40-333): the `/remember:` fast path
(lines 45-59), else the main path. -/
def processWithEvents (cfg : Config) (db : DBView) (chatId : Int)
    (overridePrompt : Option String) (image : Option ImageData)
    (provider : Nat → Option ModelResponse) (compactResp : Option ModelResponse)
    (toolExec : String → String → ToolResultEnv) : RunOut :=
  let main := processMain cfg db overridePrompt image provider compactResp toolExec
  match overridePrompt with
  | some _ => main
  | none =>
    if db.recent1Err then main
    else
      match db.recent1.getLast? with
      | none => main
      | some lastMsg =>
        if lastMsg.isFromBot then main
        else if hasPrefixStr "/remember:" (toLowerStr lastMsg.content) then
          let content := trimStr (lastMsg.content.drop ("/remember:".length))
          if content = "" then main
          else { ret := some "Remembered.", memoryInserted := some (some chatId, content) }
        else main

/-! ## Concrete inputs for the engine claims -/

/-- A session history holding an orphan `tool_result` (legitimately possible
in stitched/forked histories per the spec). -/
def exC2session : List Message :=
  [⟨"user", .blocks [toolResultBlock "x" "r" false]⟩, ⟨"user", .text "hi"⟩]

def exC2db : DBView := ⟨[], false, some exC2session, [], some [], []⟩

def exC2cfg : Config := ⟨1, 100, 5, 0⟩

def exC2prov : Nat → Option ModelResponse :=
  fun _ => some ⟨[⟨"text", "ok", "", "", ""⟩], "end_turn"⟩

/-- A tool executor oracle returning a fixed success envelope. -/
def noTools : String → String → ToolResultEnv := fun _ _ => ⟨"", false⟩

/-- An `end_turn` response with no content: its visible text is empty. -/
def exC6resp : ModelResponse := ⟨[], "end_turn"⟩

def exC6prov : Nat → Option ModelResponse := fun _ => some exC6resp

/-- A provider that always asks for a tool. -/
def exC7resp : Nat → ModelResponse :=
  fun _ => ⟨[⟨"tool_use", "", "t1", "echo", "\x7b\x7d"⟩], "tool_use"⟩

def exC7tool : String → String → ToolResultEnv := fun _ _ => ⟨"hi", false⟩

def exC8msgs : List Message :=
  [⟨"user", .text "a"⟩, ⟨"assistant", .text "b"⟩, ⟨"user", .text "c"⟩]

/-- A ceiling of 1 message, so `exC8msgs` triggers compaction. -/
def exC8cfg : Config := ⟨3, 1, 1, 0⟩

def exC9 : List Message :=
  [⟨"user", .blocks [imageBlock "image/png" "xyz", textBlock "hi"]⟩]

def exC10db : DBView := ⟨[⟨"bob", "/Remember: likes tea", false⟩], false, none, [], some [], []⟩

def exC10cfg : Config := ⟨3, 100, 5, 0⟩

end Miniclawd

namespace Miniclawd

/-! ## Sanitizer lemmas -/

lemma mergeInto_role (last msg : Message) : (mergeInto last msg).role = last.role := by
  unfold mergeInto
  dsimp only
  split <;> rfl

lemma mergeRun_head_role (l : List Message) (last : Message) :
    ∃ h t, mergeRun last l = h :: t ∧ h.role = last.role := by
  induction l generalizing last with
  | nil => exact ⟨last, [], rfl, rfl⟩
  | cons m rest ih =>
    by_cases hr : m.role = last.role
    · rw [mergeRun, if_pos hr]
      obtain ⟨h, t, he, hrole⟩ := ih (mergeInto last m)
      exact ⟨h, t, he, by rw [hrole, mergeInto_role]⟩
    · rw [mergeRun, if_neg hr]
      exact ⟨last, _, rfl, rfl⟩

lemma chain'_mergeRun (l : List Message) (last : Message) :
    List.Chain' (fun a b : Message => a.role ≠ b.role) (mergeRun last l) := by
  induction l generalizing last with
  | nil => simp [mergeRun]
  | cons m rest ih =>
    by_cases hr : m.role = last.role
    · rw [mergeRun, if_pos hr]; exact ih (mergeInto last m)
    · rw [mergeRun, if_neg hr]
      refine List.chain'_cons'.mpr ⟨?_, ih m⟩
      intro y hy
      obtain ⟨h, t, he, hrole⟩ := mergeRun_head_role rest m
      rw [he] at hy
      simp only [List.head?_cons, Option.mem_def, Option.some.injEq] at hy
      rw [hy] at hrole
      rw [hrole]
      exact fun hcontra => hr hcontra.symm

lemma mergeRun_eq_self (l : List Message) (last : Message)
    (h : List.Chain' (fun a b : Message => a.role ≠ b.role) (last :: l)) :
    mergeRun last l = last :: l := by
  induction l generalizing last with
  | nil => rfl
  | cons m rest ih =>
    have hne : last.role ≠ m.role := (List.chain'_cons.mp h).1
    rw [mergeRun, if_neg (fun he => hne he.symm)]
    rw [ih m (List.chain'_cons.mp h).2]

lemma chain'_mergeMessages (l : List Message) :
    List.Chain' (fun a b : Message => a.role ≠ b.role) (mergeMessages l) := by
  cases l with
  | nil => simp [mergeMessages]
  | cons m rest => exact chain'_mergeRun rest m

lemma mergeMessages_eq_self {l : List Message}
    (h : List.Chain' (fun a b : Message => a.role ≠ b.role) l) :
    mergeMessages l = l := by
  cases l with
  | nil => rfl
  | cons m rest => exact mergeRun_eq_self rest m h

lemma chain'_sanitizeMessages (m : List Message) :
    List.Chain' (fun a b : Message => a.role ≠ b.role) (sanitizeMessages m) := by
  unfold sanitizeMessages
  split
  · next hemp => rw [List.isEmpty_iff.mp hemp]; simp
  · exact chain'_mergeMessages _

/-! ## Orphan-freeness is preserved into the output -/

lemma removeOrphans_userBlocksOk (ids : List String) :
    ∀ l : List Message, ∀ msg ∈ removeOrphans ids l, userBlocksOk ids msg := by
  intro l
  induction l with
  | nil => intro msg h; simp [removeOrphans] at h
  | cons m rest ih =>
    intro msg hmem
    by_cases hub : m.role = "user" ∧ m.content.isBlocks
    · rw [removeOrphans, if_pos hub] at hmem
      by_cases hk : (m.content.blocksField.filter
          (fun b => ¬(b.type = "tool_result" ∧ ¬ids.contains b.toolUseId))).isEmpty
      · rw [if_pos hk] at hmem
        exact ih msg hmem
      · rw [if_neg hk] at hmem
        rcases List.mem_cons.mp hmem with h | h
        · intro _ b hb htr
          rw [h] at hb
          simp only [MContent.blocksField] at hb
          have := List.of_mem_filter hb
          simp only [decide_eq_true_eq] at this
          by_contra hcon
          exact this ⟨htr, by simpa using hcon⟩
        · exact ih msg h
    · rw [removeOrphans, if_neg hub] at hmem
      rcases List.mem_cons.mp hmem with h | h
      · intro hrole b hb htr
        rw [h] at hrole hb
        exfalso
        rcases hcontent : m.content with s | bs
        · rw [hcontent] at hb; simp [MContent.blocksField] at hb
        · exact hub ⟨hrole, by rw [hcontent]; rfl⟩
      · exact ih msg h

lemma mergeInto_userBlocksOk (ids : List String) (last msg : Message)
    (h : userBlocksOk ids last) : userBlocksOk ids (mergeInto last msg) := by
  unfold mergeInto
  dsimp only
  split
  · intro _ b hb
    simp [MContent.blocksField] at hb
  · exact h

lemma mergeRun_userBlocksOk (ids : List String) :
    ∀ (l : List Message) (last : Message), userBlocksOk ids last →
      (∀ m ∈ l, userBlocksOk ids m) →
      ∀ msg ∈ mergeRun last l, userBlocksOk ids msg := by
  intro l
  induction l with
  | nil =>
    intro last hlast _ msg hmem
    rw [mergeRun] at hmem
    simp only [List.mem_singleton] at hmem
    rw [hmem]; exact hlast
  | cons m rest ih =>
    intro last hlast hall msg hmem
    by_cases hr : m.role = last.role
    · rw [mergeRun, if_pos hr] at hmem
      exact ih (mergeInto last m) (mergeInto_userBlocksOk ids last m hlast)
        (fun x hx => hall x (List.mem_cons_of_mem m hx)) msg hmem
    · rw [mergeRun, if_neg hr] at hmem
      rcases List.mem_cons.mp hmem with h | h
      · rw [h]; exact hlast
      · exact ih m (hall m (List.mem_cons_self m rest))
          (fun x hx => hall x (List.mem_cons_of_mem m hx)) msg h

lemma sanitize_userBlocksOk (m : List Message) :
    ∀ msg ∈ sanitizeMessages m, userBlocksOk (assistantToolUseIds m) msg := by
  unfold sanitizeMessages
  split
  · next hemp =>
    rw [List.isEmpty_iff.mp hemp]
    intro msg h; simp at h
  · intro msg hmem
    match hcl : removeOrphans (assistantToolUseIds m) m with
    | [] => rw [hcl] at hmem; simp [mergeMessages] at hmem
    | c :: cs =>
      rw [hcl] at hmem
      have hok : ∀ x ∈ c :: cs, userBlocksOk (assistantToolUseIds m) x := by
        rw [← hcl]; exact removeOrphans_userBlocksOk _ m
      exact mergeRun_userBlocksOk _ cs c (hok c (List.mem_cons_self c cs))
        (fun x hx => hok x (List.mem_cons_of_mem c hx)) msg hmem

/-! ## Claim C1 — sanitization idempotence -/

/-- C1 counterexample: `SanitizeMessages` is *not* idempotent.  On `exC1` the
merge step collapses the two consecutive assistant messages to plain text,
erasing the `tool_use` id `"1"`; the user's `tool_result` survives the first
pass but is an orphan of the first pass's output, so a second pass drops it. -/
theorem c1_sanitize_not_idempotent :
    sanitizeMessages (sanitizeMessages exC1) ≠ sanitizeMessages exC1 := by decide

/-- C1 (amended): sanitization is idempotent on every message list whose
sanitized form contains no orphan `tool_result` (i.e. the orphan-removal pass
is the identity on the sanitizer's output). -/
theorem c1_sanitize_idempotent_of_orphanFree (m : List Message)
    (h : removeOrphans (assistantToolUseIds (sanitizeMessages m)) (sanitizeMessages m)
          = sanitizeMessages m) :
    sanitizeMessages (sanitizeMessages m) = sanitizeMessages m := by
  have hchain := chain'_sanitizeMessages m
  set out := sanitizeMessages m with hout
  unfold sanitizeMessages
  split
  · rfl
  · rw [h]
    exact mergeMessages_eq_self hchain

/-- C1 witness: the amended idempotence theorem applied to a concrete list
satisfying its orphan-freeness hypothesis. -/
theorem c1_sanitize_idempotent_witness :
    removeOrphans (assistantToolUseIds (sanitizeMessages exC1w)) (sanitizeMessages exC1w)
        = sanitizeMessages exC1w
    ∧ sanitizeMessages (sanitizeMessages exC1w) = sanitizeMessages exC1w :=
  ⟨by decide, c1_sanitize_idempotent_of_orphanFree exC1w (by decide)⟩

/-! ## Claim C5 — orphan removal -/

/-- C5 counterexample: an orphan `tool_result` carried by an *assistant*
message is not removed by the sanitizer (the filter only visits user
block-messages), refuting the claim as stated over arbitrary message lists. -/
theorem c5_orphan_not_always_removed :
    ¬ (∀ msg ∈ sanitizeMessages exC5, ∀ b ∈ msg.content.blocksField,
        b.type = "tool_result" → (assistantToolUseIds exC5).contains b.toolUseId = true) := by
  decide

/-- C5 (amended): for any message list, every orphan `tool_result` residing in
a *user* block-message is absent from the sanitizer's output; consequently a
user message whose blocks include an orphan `tool_result` (in particular one
whose only block is such an orphan) is absent from the output. -/
theorem c5_user_orphans_removed (m : List Message) :
    (∀ msg ∈ sanitizeMessages m, userBlocksOk (assistantToolUseIds m) msg)
    ∧ ∀ (msg : Message) (bs : List ContentBlock), msg.role = "user" →
        msg.content = .blocks bs →
        (∃ b ∈ bs, b.type = "tool_result" ∧ (assistantToolUseIds m).contains b.toolUseId = false) →
        msg ∉ sanitizeMessages m := by
  refine ⟨sanitize_userBlocksOk m, ?_⟩
  rintro msg bs hrole hcontent ⟨b, hb, htr, hfalse⟩ hmem
  have hok := sanitize_userBlocksOk m msg hmem hrole b
    (by rw [hcontent]; exact hb) htr
  rw [hok] at hfalse
  exact absurd hfalse (by simp)

/-- C5 witness: in `exC5w`, the user message whose only block is the orphan
`tool_result` `"z"` is absent from the sanitized output. -/
theorem c5_user_orphans_removed_witness :
    (⟨"user", .blocks [toolResultBlock "z" "r" false]⟩ : Message) ∉ sanitizeMessages exC5w :=
  (c5_user_orphans_removed exC5w).2 _ [toolResultBlock "z" "r" false] rfl rfl
    ⟨toolResultBlock "z" "r" false, by decide, by decide, by decide⟩

/-! ## Ranker sort lemmas -/

lemma selectPass_length (c : Scored) (l : List Scored) :
    (selectPass c l).2.length = l.length := by
  induction l generalizing c with
  | nil => rfl
  | cons x xs ih =>
    rw [selectPass]
    split
    · simp [ih]
    · simp [ih]

lemma selectPass_perm (c : Scored) (l : List Scored) :
    List.Perm ((selectPass c l).1 :: (selectPass c l).2) (c :: l) := by
  induction l generalizing c with
  | nil => exact List.Perm.refl _
  | cons x xs ih =>
    rw [selectPass]
    split
    · exact (List.Perm.swap c _ _).trans ((ih x).cons c)
    · exact (List.Perm.swap x _ _).trans (((ih c).cons x).trans (List.Perm.swap c x xs))

lemma selectPass_max (c : Scored) (l : List Scored) :
    c.score ≤ (selectPass c l).1.score
    ∧ ∀ y ∈ (selectPass c l).2, y.score ≤ (selectPass c l).1.score := by
  induction l generalizing c with
  | nil => exact ⟨le_refl _, by simp [selectPass]⟩
  | cons x xs ih =>
    rw [selectPass]
    split
    · next hlt =>
      refine ⟨le_of_lt (lt_of_lt_of_le hlt (ih x).1), ?_⟩
      intro y hy
      rcases List.mem_cons.mp hy with h | h
      · rw [h]; exact le_of_lt (lt_of_lt_of_le hlt (ih x).1)
      · exact (ih x).2 y h
    · next hnlt =>
      refine ⟨(ih c).1, ?_⟩
      intro y hy
      rcases List.mem_cons.mp hy with h | h
      · rw [h]; exact le_trans (le_of_not_lt hnlt) (ih c).1
      · exact (ih c).2 y h

lemma selSortAux_perm :
    ∀ (fuel : Nat) (l : List Scored), l.length ≤ fuel → List.Perm (selSortAux fuel l) l := by
  intro fuel
  induction fuel with
  | zero =>
    intro l hl
    rw [List.length_eq_zero.mp (Nat.le_zero.mp hl)]
    rfl
  | succ n ih =>
    intro l hl
    match l with
    | [] => rfl
    | x :: xs =>
      rw [selSortAux]
      have hlen : (selectPass x xs).2.length ≤ n := by
        rw [selectPass_length]
        have := hl
        simp only [List.length_cons] at this
        omega
      exact ((ih _ hlen).cons _).trans (selectPass_perm x xs)

lemma selSort_perm (l : List Scored) : List.Perm (selSort l) l :=
  selSortAux_perm l.length l (le_refl _)

lemma selSortAux_sorted :
    ∀ (fuel : Nat) (l : List Scored), l.length ≤ fuel →
      List.Pairwise (fun a b : Scored => b.score ≤ a.score) (selSortAux fuel l) := by
  intro fuel
  induction fuel with
  | zero =>
    intro l hl
    rw [List.length_eq_zero.mp (Nat.le_zero.mp hl)]
    exact List.Pairwise.nil
  | succ n ih =>
    intro l hl
    match l with
    | [] => exact List.Pairwise.nil
    | x :: xs =>
      rw [selSortAux]
      have hlen : (selectPass x xs).2.length ≤ n := by
        rw [selectPass_length]
        have := hl
        simp only [List.length_cons] at this
        omega
      refine List.pairwise_cons.mpr ⟨?_, ih _ hlen⟩
      intro y hy
      have hy' : y ∈ (selectPass x xs).2 := (selSortAux_perm n _ hlen).mem_iff.mp hy
      exact (selectPass_max x xs).2 y hy'

lemma selSort_sorted (l : List Scored) :
    List.Pairwise (fun a b : Scored => b.score ≤ a.score) (selSort l) :=
  selSortAux_sorted l.length l (le_refl _)

/-! ## Claim C3 — ranking order and (non-)stability -/

/-- C3 counterexample: the ranker's swap-based sort is *not* stable.  In
`exC3` the equal-scored candidates `alpha` (index 0) and `beta` (index 1) come
out in the order `beta`, `alpha`: the swap with the higher-scored `gamma`
moves `alpha` behind `beta`. -/
theorem c3_sort_not_stable : ¬ selSortStableOn exC3 := by decide

/-- C3 (amended): the ranker's sort orders the candidates by score descending
(adjacent-wise and pairwise nonincreasing) and is a permutation of the fetch
order, but it is not stable: equal-scored candidates may be reordered. -/
theorem c3_sort_descending (memories : List Memory) (query : String) :
    List.Pairwise (fun a b : Scored => b.score ≤ a.score)
        (selSort (memoryCandidates memories query))
    ∧ List.Perm (selSort (memoryCandidates memories query)) (memoryCandidates memories query) :=
  ⟨selSort_sorted _, selSort_perm _⟩

/-! ## Claim C4 — budget respect and non-empty selection -/

lemma selectLoop_sum_le (budget : Int) :
    ∀ (l : List Scored) (tu sc : Nat), 0 < sc → (tu : Int) ≤ budget →
      ((estSum (selectLoop budget l tu sc) + tu : Nat) : Int) ≤ budget := by
  intro l
  induction l with
  | nil =>
    intro tu sc _ htu
    simpa [selectLoop, estSum] using htu
  | cons c rest ih =>
    intro tu sc hsc htu
    rw [selectLoop]
    split
    · exact ih tu sc hsc htu
    · next hcond =>
      have hle : ((tu + memEstimate c.mem : Nat) : Int) ≤ budget := by
        rcases not_and_or.mp hcond with h | h
        · exact le_of_not_lt h
        · exact absurd hsc h
      have := ih (tu + memEstimate c.mem) (sc + 1) (Nat.succ_pos sc) hle
      simp only [estSum, List.map_cons, List.sum_cons] at *
      push_cast at this ⊢
      linarith

lemma selectLoop_nil_of_over (budget : Int) :
    ∀ (l : List Scored) (tu sc : Nat), 0 < sc → budget < (tu : Int) →
      selectLoop budget l tu sc = [] := by
  intro l
  induction l with
  | nil => intro tu sc _ _; rfl
  | cons c rest ih =>
    intro tu sc hsc htu
    rw [selectLoop]
    rw [if_pos]
    · exact ih tu sc hsc htu
    · constructor
      · have : (tu : Int) ≤ ((tu + memEstimate c.mem : Nat) : Int) := by push_cast; linarith
        exact lt_of_lt_of_le htu this
      · exact hsc

/-- C4: the ranker's selection either fits the budget (summed estimates at
most the budget) or consists of just the unconditionally-admitted first
candidate; and with a positive budget and at least one candidate the
selection — and hence the formatted context — is non-empty. -/
theorem c4_budget_respected (memories : List Memory) (query : String) (budget : Int) :
    (((estSum (memorySelection memories query budget) : Nat) : Int) ≤ budget
      ∨ (memorySelection memories query budget).length ≤ 1)
    ∧ (0 < budget → memories ≠ [] →
        memorySelection memories query budget ≠ []
        ∧ buildDBMemoryContext memories query budget ≠ "") := by
  have hsel : ∀ b : Int, memorySelection memories query b
      = selectLoop b (selSort (memoryCandidates memories query)) 0 0 := fun _ => rfl
  constructor
  · rw [hsel]
    match hs : selSort (memoryCandidates memories query) with
    | [] => right; rw [selectLoop]; simp
    | c :: rest =>
      rw [selectLoop]
      rw [if_neg (by simp)]
      by_cases hb : ((memEstimate c.mem : Nat) : Int) ≤ budget
      · left
        have := selectLoop_sum_le budget rest (0 + memEstimate c.mem) (0 + 1)
          (by simp) (by simpa using hb)
        simp only [estSum, List.map_cons, List.sum_cons] at *
        push_cast at this ⊢
        linarith
      · right
        rw [selectLoop_nil_of_over budget rest (0 + memEstimate c.mem) (0 + 1)
          (by simp) (by simpa using lt_of_not_le hb)]
        simp
  · intro hbud hmem
    have hne : memorySelection memories query budget ≠ [] := by
      rw [hsel]
      match hs : selSort (memoryCandidates memories query) with
      | c :: rest =>
        rw [selectLoop]
        rw [if_neg (by simp)]
        simp
      | [] =>
        exfalso
        have hp := selSort_perm (memoryCandidates memories query)
        rw [hs] at hp
        have : memoryCandidates memories query = [] := (List.Perm.nil_eq hp).symm
        have : memories = [] := by
          cases memories with
          | nil => rfl
          | cons m ms => simp [memoryCandidates] at this
        exact hmem this
    refine ⟨hne, ?_⟩
    rw [buildDBMemoryContext]
    rw [if_neg (not_le.mpr hbud)]
    rw [if_neg (by simpa [List.isEmpty_iff] using hmem)]
    rw [if_neg (by simpa [List.isEmpty_iff] using hne)]
    intro hfmt
    have hlen := congrArg String.length hfmt
    rw [formatMemories] at hlen
    simp only [String.length_append] at hlen
    have h1 : ("<structured_memories>\n").length = 22 := rfl
    have h2 : ("</structured_memories>").length = 22 := rfl
    have h3 : ("" : String).length = 0 := rfl
    omega

/-- C4 witness: positive budget, one candidate — selection and context are
non-empty, and the budget disjunction holds. -/
theorem c4_budget_respected_witness :
    (0 : Int) < 5 ∧ exC4 ≠ []
    ∧ ((((estSum (memorySelection exC4 "tea" 5) : Nat) : Int) ≤ 5
          ∨ (memorySelection exC4 "tea" 5).length ≤ 1)
        ∧ (memorySelection exC4 "tea" 5 ≠ []
          ∧ buildDBMemoryContext exC4 "tea" 5 ≠ "")) :=
  ⟨by decide, by simp [exC4], (c4_budget_respected exC4 "tea" 5).1,
    (c4_budget_respected exC4 "tea" 5).2 (by decide) (by simp [exC4])⟩

/-! ## Claim C7 — loop termination and exhaustion -/

lemma loopGo_calls_le (provider : Nat → Option ModelResponse)
    (toolExec : String → String → ToolResultEnv) (maxIter : Nat) :
    ∀ (fuel : Nat) (msgs : List Message) (r : Bool) (i : Nat),
      (loopGo provider toolExec maxIter fuel msgs r i).llmCalls.length ≤ fuel := by
  intro fuel
  induction fuel with
  | zero => intro msgs r i; simp [loopGo]
  | succ n ih =>
    intro msgs r i
    rw [loopGo]
    cases hp : provider i with
    | none => simp
    | some resp =>
      dsimp only
      split
      · split
        · simpa using Nat.succ_le_succ (ih _ _ _)
        · simp
      · split
        · simpa using Nat.succ_le_succ (ih _ _ _)
        · split
          · simp
          · simp

/-- C7: the loop always performs at most `fuel` (= `maxIterations`) model
calls; and with any provider that always answers `tool_use` and
`maxIterations = 3`, it makes exactly 3 calls, persists the accumulated
session as-is, and returns the fixed exhaustion notice (not an error). -/
theorem c7_loop_exhaustion :
    (∀ (provider : Nat → Option ModelResponse) (toolExec : String → String → ToolResultEnv)
        (maxIter fuel : Nat) (msgs : List Message) (r : Bool) (i : Nat),
      (loopGo provider toolExec maxIter fuel msgs r i).llmCalls.length ≤ fuel)
    ∧ (∀ (respFn : Nat → ModelResponse) (toolExec : String → String → ToolResultEnv)
        (msgs : List Message) (i : Nat),
        (∀ n, (respFn n).stopReason = "tool_use") →
        loopGo (fun n => some (respFn n)) toolExec 3 3 msgs false i
          = { ret := some (maxIterationsNotice 3),
              llmCalls := [msgs,
                msgs ++ toolRoundMessages toolExec (respFn i),
                msgs ++ toolRoundMessages toolExec (respFn i)
                  ++ toolRoundMessages toolExec (respFn (i + 1))],
              savedSession := some (saveSessionPayload
                (msgs ++ toolRoundMessages toolExec (respFn i)
                  ++ toolRoundMessages toolExec (respFn (i + 1))
                  ++ toolRoundMessages toolExec (respFn (i + 2)))) }) := by
  constructor
  · exact fun provider toolExec maxIter fuel => loopGo_calls_le provider toolExec maxIter fuel
  · intro respFn toolExec msgs i h
    have h0 := h i
    have h1 := h (i + 1)
    have h2 := h (i + 2)
    simp [loopGo, h0, h1, h2, List.append_assoc]

/-- C7 witness: the concrete always-`tool_use` mock provider. -/
theorem c7_loop_exhaustion_witness :
    (loopGo (fun n => some (exC7resp n)) exC7tool 3 3 [] false 0).llmCalls.length ≤ 3
    ∧ loopGo (fun n => some (exC7resp n)) exC7tool 3 3 [] false 0
        = { ret := some (maxIterationsNotice 3),
            llmCalls := [[], toolRoundMessages exC7tool (exC7resp 0),
              toolRoundMessages exC7tool (exC7resp 0) ++ toolRoundMessages exC7tool (exC7resp 1)],
            savedSession := some (saveSessionPayload
              (toolRoundMessages exC7tool (exC7resp 0) ++ toolRoundMessages exC7tool (exC7resp 1)
                ++ toolRoundMessages exC7tool (exC7resp 2))) } :=
  ⟨c7_loop_exhaustion.1 (fun n => some (exC7resp n)) exC7tool 3 3 [] false 0,
    by simpa using c7_loop_exhaustion.2 exC7resp exC7tool [] 0 (fun _ => rfl)⟩

/-! ## Claim C6 — empty-reply retry -/

/-- C6: on an `end_turn` response whose visible text (after think-stripping)
is empty, the loop with the retry flag clear does not terminate — it appends
the raw assistant turn and the synthetic nudge, sets the flag, and iterates —
while with the flag already set the same response is accepted as final and
the session is persisted, so at most one empty-reply retry happens per turn. -/
theorem c6_empty_reply_retry (provider : Nat → Option ModelResponse)
    (toolExec : String → String → ToolResultEnv) (maxIter fuel : Nat)
    (msgs : List Message) (i : Nat) (resp : ModelResponse)
    (hp : provider i = some resp) (hsr : resp.stopReason = "end_turn")
    (hempty : trimStr (stripThinking (extractText resp)) = "") :
    (loopGo provider toolExec maxIter (fuel + 1) msgs false i
        = { loopGo provider toolExec maxIter fuel
              (msgs ++ [⟨"assistant", responseToContent resp⟩, nudgeMessage]) true (i + 1)
            with llmCalls := msgs :: (loopGo provider toolExec maxIter fuel
              (msgs ++ [⟨"assistant", responseToContent resp⟩, nudgeMessage]) true
              (i + 1)).llmCalls })
    ∧ (loopGo provider toolExec maxIter (fuel + 1) msgs true i
        = { ret := some (stripThinking (extractText resp)),
            llmCalls := [msgs],
            savedSession := some (saveSessionPayload
              (msgs ++ [⟨"assistant", responseToContent resp⟩])) }) := by
  constructor
  · rw [loopGo, hp]
    dsimp only
    rw [if_pos (Or.inl hsr), if_pos ⟨hempty, by simp⟩]
  · rw [loopGo, hp]
    dsimp only
    rw [if_pos (Or.inl hsr), if_neg (by simp [hempty])]

/-- C6 witness: a concrete empty `end_turn` response, one retry then final
acceptance. -/
theorem c6_empty_reply_retry_witness :
    (loopGo exC6prov noTools 2 2 [] false 0
        = { loopGo exC6prov noTools 2 1
              [⟨"assistant", responseToContent exC6resp⟩, nudgeMessage] true 1
            with llmCalls := [] :: (loopGo exC6prov noTools 2 1
              [⟨"assistant", responseToContent exC6resp⟩, nudgeMessage] true 1).llmCalls })
    ∧ (loopGo exC6prov noTools 2 2 [] true 0
        = { ret := some (stripThinking (extractText exC6resp)),
            llmCalls := [([] : List Message)],
            savedSession := some (saveSessionPayload
              [⟨"assistant", responseToContent exC6resp⟩]) }) := by
  have h := c6_empty_reply_retry exC6prov noTools 2 1 [] 0 exC6resp rfl rfl (by decide)
  simpa using h

/-! ## Claim C2 — sanitization before submission -/

/-- C2 refutation: the engine submits the assembled history to the provider
verbatim — `SanitizeMessages` is never invoked on the loop's path (nor
anywhere else in the repository).  On a session carrying an orphan
`tool_result`, the one submitted message list differs from its sanitized
form, so the submission is not the sanitizer's output. -/
theorem c2_submission_not_sanitized :
    (processWithEvents exC2cfg exC2db 1 none none exC2prov none noTools).llmCalls
        = [exC2session]
    ∧ sanitizeMessages exC2session ≠ exC2session := by
  constructor
  · decide
  · decide

/-! ## Claim C8 — compaction atomic on failure -/

/-- C8: a failed summarization call (`none`) or an empty summary leaves the
history exactly as given, the engine then proceeds into the loop with the
uncompacted messages, and the failure is not fatal (the run's outcome is the
loop's outcome). -/
theorem c8_compaction_atomic_on_failure :
    (∀ (msgs : List Message) (k : Nat), (compactMessages none msgs k).1 = msgs)
    ∧ (∀ (resp : ModelResponse) (msgs : List Message) (k : Nat),
        summaryTextOf resp = "" → (compactMessages (some resp) msgs k).1 = msgs)
    ∧ (∀ (cfg : Config) (msgs : List Message) (cresp : Option ModelResponse),
        (cresp = none ∨ ∀ r, cresp = some r → summaryTextOf r = "") →
        (messagesAfterCompaction cfg cresp msgs).1 = msgs)
    ∧ (∀ (cfg : Config) (db : DBView) (ov : Option String) (img : Option ImageData)
        (provider : Nat → Option ModelResponse) (toolExec : String → String → ToolResultEnv)
        (cresp : Option ModelResponse) (asm : List Message),
        (cresp = none ∨ ∀ r, cresp = some r → summaryTextOf r = "") →
        assembleMessages db ov = some asm →
        (processMain cfg db ov img provider cresp toolExec).ret
          = (loopGo provider toolExec cfg.maxToolIterations cfg.maxToolIterations
              (attachImage img asm) false 0).ret) := by
  have hcm : ∀ (msgs : List Message) (k : Nat), (compactMessages none msgs k).1 = msgs := by
    intro msgs k
    rw [compactMessages]
    split
    · rfl
    · rfl
  have hcm2 : ∀ (resp : ModelResponse) (msgs : List Message) (k : Nat),
      summaryTextOf resp = "" → (compactMessages (some resp) msgs k).1 = msgs := by
    intro resp msgs k hs
    rw [compactMessages]
    split
    · rfl
    · dsimp only
      rw [if_pos hs]
  have hmac : ∀ (cfg : Config) (msgs : List Message) (cresp : Option ModelResponse),
      (cresp = none ∨ ∀ r, cresp = some r → summaryTextOf r = "") →
      (messagesAfterCompaction cfg cresp msgs).1 = msgs := by
    intro cfg msgs cresp hfail
    rw [messagesAfterCompaction]
    split
    · rcases hfail with h | h
      · subst h
        rcases hc : compactMessages none msgs cfg.compactKeepRecent with ⟨c, e⟩
        cases e with
        | true => simp
        | false =>
          have := hcm msgs cfg.compactKeepRecent
          rw [hc] at this
          simpa using this
      · cases cresp with
        | none =>
          rcases hc : compactMessages none msgs cfg.compactKeepRecent with ⟨c, e⟩
          cases e with
          | true => simp
          | false =>
            have := hcm msgs cfg.compactKeepRecent
            rw [hc] at this
            simpa using this
        | some r =>
          rcases hc : compactMessages (some r) msgs cfg.compactKeepRecent with ⟨c, e⟩
          cases e with
          | true => simp
          | false =>
            have := hcm2 r msgs cfg.compactKeepRecent (h r rfl)
            rw [hc] at this
            simpa using this
    · rfl
  refine ⟨hcm, hcm2, hmac, ?_⟩
  intro cfg db ov img provider toolExec cresp asm hfail hasm
  rw [processMain, hasm]
  dsimp only
  rw [hmac cfg (attachImage img asm) cresp hfail]

/-- C8 witness: a 3-message history over a ceiling of 1, with an erroring
summarization call: compaction and the engine leave it unchanged. -/
theorem c8_compaction_atomic_witness :
    (compactMessages none exC8msgs 1).1 = exC8msgs
    ∧ (messagesAfterCompaction exC8cfg none exC8msgs).1 = exC8msgs :=
  ⟨c8_compaction_atomic_on_failure.1 exC8msgs 1,
    c8_compaction_atomic_on_failure.2.2.1 exC8cfg exC8msgs none (Or.inl rfl)⟩

/-! ## Claim C9 — no image blocks persisted -/

/-- C9: the session-save path strips every `image` block before
serialization: no message in a persisted payload carries an image block, and
every session the loop saves is such a payload. -/
theorem c9_no_images_persisted :
    (∀ (msgs : List Message), ∀ m ∈ saveSessionPayload msgs,
      ∀ b ∈ m.content.blocksField, b.type ≠ "image")
    ∧ (∀ (provider : Nat → Option ModelResponse) (toolExec : String → String → ToolResultEnv)
        (maxIter fuel : Nat) (msgs : List Message) (r : Bool) (i : Nat) (s : List Message),
        (loopGo provider toolExec maxIter fuel msgs r i).savedSession = some s →
        ∀ m ∈ s, ∀ b ∈ m.content.blocksField, b.type ≠ "image") := by
  have hmain : ∀ (msgs : List Message), ∀ m ∈ saveSessionPayload msgs,
      ∀ b ∈ m.content.blocksField, b.type ≠ "image" := by
    intro msgs m hm b hb
    rw [saveSessionPayload, stripImagesForSession] at hm
    rcases List.mem_map.mp hm with ⟨x, -, hfx⟩
    rcases hc : x.content with s | bs
    · simp only [hc] at hfx
      subst hfx
      rw [hc] at hb
      simp [MContent.blocksField] at hb
    · simp only [hc] at hfx
      by_cases hf : (bs.filter (fun b => b.type ≠ "image")).isEmpty
      · rw [if_pos (by simpa using hf)] at hfx
        subst hfx
        simp [MContent.blocksField] at hb
      · rw [if_neg (by simpa using hf)] at hfx
        subst hfx
        simp only [MContent.blocksField] at hb
        have := List.of_mem_filter hb
        simpa using this
  refine ⟨hmain, ?_⟩
  intro provider toolExec maxIter fuel
  induction fuel with
  | zero =>
    intro msgs r i s hs
    rw [loopGo] at hs
    simp only [Option.some.injEq] at hs
    subst hs
    exact hmain _
  | succ n ih =>
    intro msgs r i s hs
    rw [loopGo] at hs
    cases hp : provider i with
    | none => rw [hp] at hs; simp at hs
    | some resp =>
      rw [hp] at hs
      dsimp only at hs
      split at hs
      · split at hs
        · simp only at hs
          exact ih _ _ _ _ hs
        · simp only [Option.some.injEq] at hs
          subst hs
          exact hmain _
      · split at hs
        · simp only at hs
          exact ih _ _ _ _ hs
        · split at hs
          · simp only [Option.some.injEq] at hs
            subst hs
            exact hmain _
          · simp only [Option.some.injEq] at hs
            subst hs
            exact hmain _

/-- C9 witness: the surviving text block of a stripped image-bearing message
is not an image block. -/
theorem c9_no_images_persisted_witness : (textBlock "hi").type ≠ "image" :=
  c9_no_images_persisted.1 exC9 ⟨"user", .blocks [textBlock "hi"]⟩ (by decide)
    (textBlock "hi") (by decide)

/-! ## Claim C10 — the `/remember:` fast path -/

/-- C10: with no override prompt, a successful recent-message query whose
last stored message is a non-bot message starting (case-insensitively) with
`/remember:` followed by non-empty text, the engine returns exactly
`"Remembered."`, records the chat-scoped memory insert of the trimmed text,
and performs no model call, no compaction and no session save. -/
theorem c10_remember_fast_path (cfg : Config) (db : DBView) (chatId : Int)
    (image : Option ImageData) (provider : Nat → Option ModelResponse)
    (compactResp : Option ModelResponse) (toolExec : String → String → ToolResultEnv)
    (lastMsg : StoredMessage)
    (herr : db.recent1Err = false)
    (hlast : db.recent1.getLast? = some lastMsg)
    (hbot : lastMsg.isFromBot = false)
    (hpre : hasPrefixStr "/remember:" (toLowerStr lastMsg.content) = true)
    (hne : trimStr (lastMsg.content.drop ("/remember:".length)) ≠ "") :
    processWithEvents cfg db chatId none image provider compactResp toolExec
      = { ret := some "Remembered.",
          memoryInserted := some (some chatId,
            trimStr (lastMsg.content.drop ("/remember:".length))) } := by
  rw [processWithEvents]
  dsimp only
  rw [herr]
  simp only [Bool.false_eq_true, if_false]
  rw [hlast]
  dsimp only
  rw [hbot]
  simp only [Bool.false_eq_true, if_false]
  rw [hpre]
  simp only [if_true]
  rw [if_neg hne]

/-- C10 witness: the stored message `"/Remember: likes tea"` triggers the
fast path. -/
theorem c10_remember_fast_path_witness :
    processWithEvents exC10cfg exC10db 7 none none exC2prov none noTools
      = { ret := some "Remembered.", memoryInserted := some (some 7, "likes tea") } := by
  have h := c10_remember_fast_path exC10cfg exC10db 7 none exC2prov none noTools
    ⟨"bob", "/Remember: likes tea", false⟩ rfl (by decide) rfl (by decide) (by decide)
  simpa using h

end Miniclawd
